import Mathlib

/-!
Verification of the circle-drawing game in `src/App.tsx`.

The numeric code of the app (the scorer `scoreDrawing` and the pointer
coordinate mapping `getPointerPosition`) works on JavaScript numbers; it is
embedded here over the real numbers `ℝ`, with `Math.hypot a b` as
`Real.sqrt (a^2 + b^2)`, `Math.round` as `round : ℝ → ℤ` (both round halves
up), and `x ** 0.75` as the real power `x ^ (0.75 : ℝ)`.  The React state
(`lastScore`, `bestScore`, `hasAttempt`) together with the mutable refs
(`isDrawingRef`, `pointsRef`, pointer capture) is embedded as an explicit
state record `AppState`, and the pointer-event handlers as functions on it.
-/

namespace CircleGame

/-- A sampled point in canvas logical-pixel space (`type Point` in the source). -/
@[ext] structure Point where
  x : ℝ
  y : ℝ

/-- The guide circle: `centerRef`/`radiusRef` in the source. -/
@[ext] structure ReferenceCircle where
  center : Point
  radius : ℝ

/-- `Math.hypot a b` for two arguments: the Euclidean norm `√(a² + b²)`. -/
noncomputable def hypot (a b : ℝ) : ℝ := Real.sqrt (a ^ 2 + b ^ 2)

/-- The canvas logical size in pixels: `const CANVAS_SIZE = 320`. -/
def CANVAS_SIZE : ℝ := 320

/-- The reference circle built in the canvas initialization effect:
center `(CANVAS_SIZE/2, CANVAS_SIZE/2)`, radius `CANVAS_SIZE * 0.38`. -/
noncomputable def defaultReference : ReferenceCircle :=
  ⟨⟨CANVAS_SIZE / 2, CANVAS_SIZE / 2⟩, CANVAS_SIZE * 0.38⟩

/-- The running sum `deviationSum` accumulated by the loop in `scoreDrawing`:
for each sample, `Math.abs(Math.hypot(point.x - cx, point.y - cy) - radius)`. -/
noncomputable def deviationSum (c : Point) (r : ℝ) : List Point → ℝ
  | [] => 0
  | p :: rest => |hypot (p.x - c.x) (p.y - c.y) - r| + deviationSum c r rest

/-- The running sum `pathLength` accumulated by the loop in `scoreDrawing`:
for each index `i > 0`, `Math.hypot(point.x - prev.x, point.y - prev.y)`. -/
noncomputable def pathLength : List Point → ℝ
  | [] => 0
  | [_] => 0
  | p :: q :: rest => hypot (q.x - p.x) (q.y - p.y) + pathLength (q :: rest)

/-- `avgDeviation = deviationSum / points.length` in `scoreDrawing`. -/
noncomputable def avgDeviation (points : List Point) (ref : ReferenceCircle) : ℝ :=
  deviationSum ref.center ref.radius points / points.length

/-- `deviationScore = Math.max(0, 1 - avgDeviation / (radius * 0.6))`. -/
noncomputable def deviationScore (points : List Point) (ref : ReferenceCircle) : ℝ :=
  max 0 (1 - avgDeviation points ref / (ref.radius * 0.6))

/-- `coverageRatio = Math.min(pathLength / (circumference * 0.9), 1)` with
`circumference = 2 * Math.PI * radius`. -/
noncomputable def coverageRatio (points : List Point) (ref : ReferenceCircle) : ℝ :=
  min (pathLength points / (2 * Real.pi * ref.radius * 0.9)) 1

/-- `coverageScore = coverageRatio ** 0.75`. -/
noncomputable def coverageScore (points : List Point) (ref : ReferenceCircle) : ℝ :=
  coverageRatio points ref ^ (0.75 : ℝ)

/-- The scorer `scoreDrawing` from the source: returns `0` for strokes of
fewer than 6 samples, otherwise
`Math.max(0, Math.min(Math.round((deviationScore*0.65 + coverageScore*0.35)*100), 100))`. -/
noncomputable def scoreDrawing (points : List Point) (ref : ReferenceCircle) : ℤ :=
  if points.length < 6 then 0
  else
    max 0 (min (round ((deviationScore points ref * 0.65
      + coverageScore points ref * 0.35) * 100)) 100)

/-- Reference definition transcribed from the spec's own words (section 4.2 /
claim C1): mean absolute radial deviation over all samples, path length as the
sum over consecutive sample pairs of their Euclidean distance, coverage ratio
`min(pathLength / (2·π·radius·0.9), 1)`, coverage score `coverageRatio^0.75`,
final score `round((deviationScore·0.65 + coverageScore·0.35)·100)` clamped
to `[0, 100]`. -/
noncomputable def specScore (stroke : List Point) (ref : ReferenceCircle) : ℤ :=
  if stroke.length < 6 then 0
  else
    let devMean := ((stroke.map
      (fun p => |hypot (p.x - ref.center.x) (p.y - ref.center.y) - ref.radius|)).sum)
        / stroke.length
    let devScore := max 0 (1 - devMean / (ref.radius * 0.6))
    let pLen := ((stroke.zip stroke.tail).map
      (fun pq => hypot (pq.2.x - pq.1.x) (pq.2.y - pq.1.y))).sum
    let covRat := min (pLen / (2 * Real.pi * ref.radius * 0.9)) 1
    let covScore := covRat ^ (0.75 : ℝ)
    min 100 (max 0 (round ((devScore * 0.65 + covScore * 0.35) * 100)))

lemma deviationSum_eq_map_sum (c : Point) (r : ℝ) (l : List Point) :
    deviationSum c r l = (l.map (fun p => |hypot (p.x - c.x) (p.y - c.y) - r|)).sum := by
  induction l with
  | nil => simp [deviationSum]
  | cons p rest ih => simp [deviationSum, ih]

lemma pathLength_eq_zip_sum (l : List Point) :
    pathLength l
      = ((l.zip l.tail).map (fun pq => hypot (pq.2.x - pq.1.x) (pq.2.y - pq.1.y))).sum := by
  induction l with
  | nil => simp [pathLength]
  | cons p rest ih =>
    cases rest with
    | nil => simp [pathLength]
    | cons q rest' =>
      simp only [pathLength, List.tail_cons, List.zip_cons_cons, List.map_cons, List.sum_cons]
      rw [ih]
      simp

lemma int_clamp_comm (x : ℤ) : min 100 (max 0 (min x 100)) = min 100 (max 0 x) := by
  omega

/-- C1: the implemented scorer agrees pointwise with the spec's reference
definition: 0 below 6 samples, else
`round((deviationScore·0.65 + coverageScore·0.35)·100)` clamped to `[0,100]`,
with `deviationScore = max(0, 1 - avgDeviation/(radius·0.6))`,
`coverageScore = coverageRatio^0.75` and
`coverageRatio = min(pathLength/(2π·radius·0.9), 1)`. -/
theorem scoreDrawing_eq_specScore (stroke : List Point) (ref : ReferenceCircle) :
    scoreDrawing stroke ref = specScore stroke ref := by
  unfold scoreDrawing specScore
  by_cases h : stroke.length < 6
  · simp [h]
  · simp only [h, if_false]
    rw [deviationScore, avgDeviation, deviationSum_eq_map_sum,
      coverageScore, coverageRatio, pathLength_eq_zip_sum]
    omega

/-- C2: for every stroke and reference circle with positive radius the score
is in `[0, 100]`; it is an integer by construction (`scoreDrawing` returns
a value of type `ℤ`). -/
theorem scoreDrawing_mem_range (stroke : List Point) (ref : ReferenceCircle)
    (_h : 0 < ref.radius) :
    0 ≤ scoreDrawing stroke ref ∧ scoreDrawing stroke ref ≤ 100 := by
  unfold scoreDrawing
  by_cases hl : stroke.length < 6
  · simp [hl]
  · simp only [hl, if_false]
    omega

/-- Witness for C2 at the empty stroke and the unit circle at the origin. -/
theorem scoreDrawing_mem_range_witness :
    (0 : ℝ) < (ReferenceCircle.mk ⟨0, 0⟩ 1).radius ∧
      (0 ≤ scoreDrawing [] ⟨⟨0, 0⟩, 1⟩ ∧ scoreDrawing [] ⟨⟨0, 0⟩, 1⟩ ≤ 100) :=
  ⟨by norm_num, scoreDrawing_mem_range [] ⟨⟨0, 0⟩, 1⟩ (by norm_num)⟩

/-! ## The capture state machine

The mutable refs and React state of the component, and the pointer-event
handlers acting on them.  Rendering calls (`context.*`) are side effects on
the out-of-scope drawing surface and have no effect on this state. -/

/-- The component state relevant to capture and scoring: `isDrawingRef`,
`pointsRef`, whether pointer capture is held, and the React score state
`lastScore` / `bestScore` / `hasAttempt`. -/
@[ext] structure AppState where
  isDrawing : Bool
  points : List Point
  captured : Bool
  lastScore : Option ℤ
  bestScore : ℤ
  hasAttempt : Bool

/-- The initial component state: not drawing, empty buffer, no capture,
`lastScore = null`, `bestScore = 0`, `hasAttempt = false`. -/
def initialState : AppState :=
  { isDrawing := false, points := [], captured := false,
    lastScore := none, bestScore := 0, hasAttempt := false }

/-- `handlePointerDown`: acquires pointer capture, resets the stroke buffer
to the down position, and starts drawing. -/
def handlePointerDown (pos : Point) (s : AppState) : AppState :=
  { s with captured := true, points := [pos], isDrawing := true }

/-- `handlePointerMove`: when drawing, appends the sampled position to the
stroke buffer (and draws a segment, out of scope); otherwise a no-op. -/
def handlePointerMove (pos : Point) (s : AppState) : AppState :=
  if s.isDrawing then { s with points := s.points ++ [pos] } else s

/-- `finishDrawing`: no-op unless drawing; stops drawing; if the buffer is
empty, returns; otherwise scores the stroke, sets `lastScore`, sets
`hasAttempt`, folds the score into `bestScore` by `max`, and clears the
buffer. -/
noncomputable def finishDrawing (ref : ReferenceCircle) (s : AppState) : AppState :=
  if !s.isDrawing then s
  else
    let s' := { s with isDrawing := false }
    if s'.points.isEmpty then s'
    else
      let nextScore := scoreDrawing s'.points ref
      { s' with lastScore := some nextScore, hasAttempt := true,
                bestScore := max s'.bestScore nextScore, points := [] }

/-- `releaseIfCaptured`: releases pointer capture when held. -/
def releaseIfCaptured (s : AppState) : AppState :=
  if s.captured then { s with captured := false } else s

/-- `handlePointerUp`: releases capture, then finishes the drawing. -/
noncomputable def handlePointerUp (ref : ReferenceCircle) (s : AppState) : AppState :=
  finishDrawing ref (releaseIfCaptured s)

/-- `handlePointerLeave`: releases capture, then finishes the drawing. -/
noncomputable def handlePointerLeave (ref : ReferenceCircle) (s : AppState) : AppState :=
  finishDrawing ref (releaseIfCaptured s)

/-- `handlePointerCancel`: releases capture, then finishes the drawing. -/
noncomputable def handlePointerCancel (ref : ReferenceCircle) (s : AppState) : AppState :=
  finishDrawing ref (releaseIfCaptured s)

/-- The five pointer events the canvas element handles. -/
inductive PointerEvent where
  | down (pos : Point)
  | move (pos : Point)
  | up
  | cancel
  | leave

/-- Dispatch of a pointer event to its handler. -/
noncomputable def step (ref : ReferenceCircle) (e : PointerEvent) (s : AppState) : AppState :=
  match e with
  | .down pos => handlePointerDown pos s
  | .move pos => handlePointerMove pos s
  | .up => handlePointerUp ref s
  | .cancel => handlePointerCancel ref s
  | .leave => handlePointerLeave ref s

/-- One completed gesture: the pointer-down position followed by the recorded
move positions, terminated by pointer-up. -/
noncomputable def runGesture (ref : ReferenceCircle) (s : AppState)
    (g : Point × List Point) : AppState :=
  handlePointerUp ref
    (g.2.foldl (fun st p => handlePointerMove p st) (handlePointerDown g.1 s))

/-- A sequence of completed gestures run from the initial state. -/
noncomputable def runGestures (ref : ReferenceCircle)
    (gs : List (Point × List Point)) : AppState :=
  gs.foldl (runGesture ref) initialState

/-- The samples recorded during a gesture: the down position then the moves. -/
def gesturePoints (g : Point × List Point) : List Point := g.1 :: g.2

lemma scoreDrawing_nonneg (points : List Point) (ref : ReferenceCircle) :
    0 ≤ scoreDrawing points ref := by
  unfold scoreDrawing
  by_cases h : points.length < 6 <;> simp [h]

lemma foldl_move_points (moves : List Point) :
    ∀ s : AppState, s.isDrawing = true →
      moves.foldl (fun st p => handlePointerMove p st) s
        = { s with points := s.points ++ moves } := by
  induction moves with
  | nil => intro s _; simp
  | cons m rest ih =>
    intro s hs
    rw [List.foldl_cons]
    have hm : handlePointerMove m s = { s with points := s.points ++ [m] } := by
      simp [handlePointerMove, hs]
    rw [hm, ih _ (by simpa using hs)]
    simp

lemma runGesture_eq (ref : ReferenceCircle) (s : AppState) (g : Point × List Point) :
    runGesture ref s g
      = { s with isDrawing := false, captured := false, points := [],
                 lastScore := some (scoreDrawing (gesturePoints g) ref),
                 hasAttempt := true,
                 bestScore := max s.bestScore (scoreDrawing (gesturePoints g) ref) } := by
  unfold runGesture
  rw [foldl_move_points g.2 (handlePointerDown g.1 s) (by simp [handlePointerDown])]
  simp [handlePointerDown, handlePointerUp, releaseIfCaptured, finishDrawing, gesturePoints]

lemma runGestures_bestScore (ref : ReferenceCircle) :
    ∀ (gs : List (Point × List Point)) (s : AppState),
      (gs.foldl (runGesture ref) s).bestScore
        = (gs.map (fun g => scoreDrawing (gesturePoints g) ref)).foldl max s.bestScore := by
  intro gs
  induction gs with
  | nil => intro s; simp
  | cons g rest ih =>
    intro s
    simp only [List.foldl_cons, List.map_cons]
    rw [ih, runGesture_eq]

lemma le_foldl_max (l : List ℤ) : ∀ a : ℤ, a ≤ l.foldl max a := by
  induction l with
  | nil => intro a; simp
  | cons x rest ih =>
    intro a
    exact le_trans (le_max_left a x) (ih (max a x))

lemma mem_le_foldl_max (l : List ℤ) : ∀ (a x : ℤ), x ∈ l → x ≤ l.foldl max a := by
  induction l with
  | nil => intro a x hx; simp at hx
  | cons y rest ih =>
    intro a x hx
    rcases List.mem_cons.1 hx with rfl | hx'
    · exact le_trans (le_max_right a x) (le_foldl_max rest (max a x))
    · exact ih (max a y) x hx'

lemma foldl_max_mem (l : List ℤ) : ∀ a : ℤ, l.foldl max a = a ∨ l.foldl max a ∈ l := by
  induction l with
  | nil => intro a; simp
  | cons x rest ih =>
    intro a
    rcases ih (max a x) with h | h
    · rcases le_total a x with hax | hxa
      · right
        simp only [List.foldl_cons, h]
        simp [max_eq_right hax]
      · left
        simp only [List.foldl_cons, h]
        simp [max_eq_left hxa]
    · right
      simp only [List.foldl_cons]
      exact List.mem_cons_of_mem x h

/-- C5: after any nonempty sequence of completed gestures from the initial
state, `bestScore` is the maximum of all recorded `lastScore` values (it is
one of them and an upper bound of them), and it never decreases when a
further gesture completes. -/
theorem bestScore_is_max_of_lastScores (ref : ReferenceCircle)
    (gs : List (Point × List Point)) (hne : gs ≠ []) :
    ((runGestures ref gs).bestScore
        ∈ gs.map (fun g => scoreDrawing (gesturePoints g) ref)
      ∧ ∀ x ∈ gs.map (fun g => scoreDrawing (gesturePoints g) ref),
          x ≤ (runGestures ref gs).bestScore)
    ∧ ∀ g : Point × List Point,
        (runGestures ref gs).bestScore ≤ (runGestures ref (gs ++ [g])).bestScore := by
  have hbest : ∀ gs' : List (Point × List Point),
      (runGestures ref gs').bestScore
        = (gs'.map (fun g => scoreDrawing (gesturePoints g) ref)).foldl max 0 := by
    intro gs'
    unfold runGestures
    rw [runGestures_bestScore]
    rfl
  constructor
  · constructor
    · rw [hbest]
      rcases foldl_max_mem (gs.map (fun g => scoreDrawing (gesturePoints g) ref)) 0 with h | h
      · -- the fold collapsed to 0: every score is ≤ 0 yet ≥ 0, so the head is 0
        cases gs with
        | nil => exact absurd rfl hne
        | cons g rest =>
          have hmem : scoreDrawing (gesturePoints g) ref
              ∈ (g :: rest).map (fun g => scoreDrawing (gesturePoints g) ref) := by
            simp
          have hle := mem_le_foldl_max _ 0 _ hmem
          rw [h] at hle
          have hge := scoreDrawing_nonneg (gesturePoints g) ref
          have hzero : scoreDrawing (gesturePoints g) ref = 0 := le_antisymm hle hge
          rw [h, ← hzero]
          exact hmem
      · exact h
    · intro x hx
      rw [hbest]
      exact mem_le_foldl_max _ 0 x hx
  · intro g
    unfold runGestures
    rw [List.foldl_append]
    simp only [List.foldl_cons, List.foldl_nil]
    rw [runGesture_eq]
    exact le_max_left _ _

/-- Witness for C5: a single gesture consisting of one tap at the origin on
the unit circle. -/
theorem bestScore_is_max_of_lastScores_witness :
    ([((⟨0, 0⟩ : Point), ([] : List Point))] ≠ ([] : List (Point × List Point)))
    ∧ (((runGestures ⟨⟨0, 0⟩, 1⟩ [(⟨0, 0⟩, [])]).bestScore
          ∈ [((⟨0, 0⟩ : Point), ([] : List Point))].map
              (fun g => scoreDrawing (gesturePoints g) ⟨⟨0, 0⟩, 1⟩)
        ∧ ∀ x ∈ [((⟨0, 0⟩ : Point), ([] : List Point))].map
              (fun g => scoreDrawing (gesturePoints g) ⟨⟨0, 0⟩, 1⟩),
            x ≤ (runGestures ⟨⟨0, 0⟩, 1⟩ [(⟨0, 0⟩, [])]).bestScore)
      ∧ ∀ g : Point × List Point,
          (runGestures ⟨⟨0, 0⟩, 1⟩ [(⟨0, 0⟩, [])]).bestScore
            ≤ (runGestures ⟨⟨0, 0⟩, 1⟩ ([(⟨0, 0⟩, [])] ++ [g])).bestScore) :=
  ⟨List.cons_ne_nil _ _,
    bestScore_is_max_of_lastScores ⟨⟨0, 0⟩, 1⟩ [(⟨0, 0⟩, [])] (List.cons_ne_nil _ _)⟩

/-- C6: pointer-cancel and pointer-leave handlers produce exactly the same
resulting state as the pointer-up handler on any state, hence on any recorded
sample sequence and prior score state; the three terminating handlers are
equivalent. -/
theorem terminating_handlers_equivalent (ref : ReferenceCircle) (s : AppState) :
    handlePointerCancel ref s = handlePointerUp ref s
      ∧ handlePointerLeave ref s = handlePointerUp ref s :=
  ⟨rfl, rfl⟩

/-- C7: a terminating event (up, cancel or leave) handled while the sample
buffer is empty records no score: `lastScore`, `bestScore` and `hasAttempt`
keep their prior values. -/
theorem empty_buffer_preserves_scores (ref : ReferenceCircle) (s : AppState)
    (h : s.points = []) :
    ((handlePointerUp ref s).lastScore = s.lastScore
      ∧ (handlePointerUp ref s).bestScore = s.bestScore
      ∧ (handlePointerUp ref s).hasAttempt = s.hasAttempt)
    ∧ ((handlePointerCancel ref s).lastScore = s.lastScore
      ∧ (handlePointerCancel ref s).bestScore = s.bestScore
      ∧ (handlePointerCancel ref s).hasAttempt = s.hasAttempt)
    ∧ ((handlePointerLeave ref s).lastScore = s.lastScore
      ∧ (handlePointerLeave ref s).bestScore = s.bestScore
      ∧ (handlePointerLeave ref s).hasAttempt = s.hasAttempt) := by
  have key : (handlePointerUp ref s).lastScore = s.lastScore
      ∧ (handlePointerUp ref s).bestScore = s.bestScore
      ∧ (handlePointerUp ref s).hasAttempt = s.hasAttempt := by
    unfold handlePointerUp finishDrawing releaseIfCaptured
    by_cases hc : s.captured <;> by_cases hd : s.isDrawing <;> simp [hc, hd, h]
  exact ⟨key, key, key⟩

/-- Witness for C7 at the initial state and the unit circle. -/
theorem empty_buffer_preserves_scores_witness :
    initialState.points = []
    ∧ (((handlePointerUp ⟨⟨0, 0⟩, 1⟩ initialState).lastScore = initialState.lastScore
        ∧ (handlePointerUp ⟨⟨0, 0⟩, 1⟩ initialState).bestScore = initialState.bestScore
        ∧ (handlePointerUp ⟨⟨0, 0⟩, 1⟩ initialState).hasAttempt = initialState.hasAttempt)
      ∧ ((handlePointerCancel ⟨⟨0, 0⟩, 1⟩ initialState).lastScore = initialState.lastScore
        ∧ (handlePointerCancel ⟨⟨0, 0⟩, 1⟩ initialState).bestScore = initialState.bestScore
        ∧ (handlePointerCancel ⟨⟨0, 0⟩, 1⟩ initialState).hasAttempt
            = initialState.hasAttempt)
      ∧ ((handlePointerLeave ⟨⟨0, 0⟩, 1⟩ initialState).lastScore = initialState.lastScore
        ∧ (handlePointerLeave ⟨⟨0, 0⟩, 1⟩ initialState).bestScore = initialState.bestScore
        ∧ (handlePointerLeave ⟨⟨0, 0⟩, 1⟩ initialState).hasAttempt
            = initialState.hasAttempt)) :=
  ⟨rfl, empty_buffer_preserves_scores ⟨⟨0, 0⟩, 1⟩ initialState rfl⟩

/-- C10: a completed gesture with between 1 and 5 recorded samples is still
recorded as an attempt (`lastScore = some 0`, `hasAttempt = true`,
`bestScore` maxed with 0, hence unchanged when it was nonnegative); and under
any event, `hasAttempt` once `true` stays `true` and `lastScore` once
non-`null` stays non-`null`. -/
theorem short_stroke_records_attempt (ref : ReferenceCircle) :
    (∀ s : AppState, s.isDrawing = true →
      1 ≤ s.points.length → s.points.length ≤ 5 →
        (handlePointerUp ref s).lastScore = some 0
        ∧ (handlePointerUp ref s).hasAttempt = true
        ∧ (handlePointerUp ref s).bestScore = max s.bestScore 0
        ∧ (0 ≤ s.bestScore → (handlePointerUp ref s).bestScore = s.bestScore))
    ∧ (∀ (s : AppState) (e : PointerEvent),
        s.hasAttempt = true → (step ref e s).hasAttempt = true)
    ∧ (∀ (s : AppState) (e : PointerEvent),
        s.lastScore ≠ none → (step ref e s).lastScore ≠ none) := by
  refine ⟨?_, ?_, ?_⟩
  · intro s hd h1 h5
    have hne : ¬ s.points.isEmpty := by
      cases hp : s.points with
      | nil => rw [hp] at h1; simp at h1
      | cons a l => simp [hp]
    have hscore : scoreDrawing s.points ref = 0 := by
      unfold scoreDrawing
      have : s.points.length < 6 := by omega
      simp [this]
    unfold handlePointerUp finishDrawing releaseIfCaptured
    by_cases hc : s.captured <;> simp [hc, hd, hne, hscore]
  · intro s e ha
    cases e with
    | down pos => simpa [step, handlePointerDown] using ha
    | move pos =>
      unfold step handlePointerMove
      by_cases hd : s.isDrawing <;> simp [hd, ha]
    | up =>
      unfold step handlePointerUp finishDrawing releaseIfCaptured
      by_cases hc : s.captured <;> by_cases hd : s.isDrawing <;>
        by_cases hp : s.points.isEmpty <;> simp [hc, hd, hp, ha]
    | cancel =>
      unfold step handlePointerCancel finishDrawing releaseIfCaptured
      by_cases hc : s.captured <;> by_cases hd : s.isDrawing <;>
        by_cases hp : s.points.isEmpty <;> simp [hc, hd, hp, ha]
    | leave =>
      unfold step handlePointerLeave finishDrawing releaseIfCaptured
      by_cases hc : s.captured <;> by_cases hd : s.isDrawing <;>
        by_cases hp : s.points.isEmpty <;> simp [hc, hd, hp, ha]
  · intro s e hl
    cases e with
    | down pos => simpa [step, handlePointerDown] using hl
    | move pos =>
      unfold step handlePointerMove
      by_cases hd : s.isDrawing <;> simp [hd, hl]
    | up =>
      unfold step handlePointerUp finishDrawing releaseIfCaptured
      by_cases hc : s.captured <;> by_cases hd : s.isDrawing <;>
        by_cases hp : s.points.isEmpty <;> simp [hc, hd, hp, hl]
    | cancel =>
      unfold step handlePointerCancel finishDrawing releaseIfCaptured
      by_cases hc : s.captured <;> by_cases hd : s.isDrawing <;>
        by_cases hp : s.points.isEmpty <;> simp [hc, hd, hp, hl]
    | leave =>
      unfold step handlePointerLeave finishDrawing releaseIfCaptured
      by_cases hc : s.captured <;> by_cases hd : s.isDrawing <;>
        by_cases hp : s.points.isEmpty <;> simp [hc, hd, hp, hl]

/-- Witness for C10: a one-sample gesture terminating from a drawing state,
and preservation of `hasAttempt`/`lastScore` on that state under pointer-up. -/
theorem short_stroke_records_attempt_witness :
    ((AppState.mk true [⟨0, 0⟩] true (some 7) 7 true).isDrawing = true
      ∧ 1 ≤ (AppState.mk true [⟨0, 0⟩] true (some 7) 7 true).points.length
      ∧ (AppState.mk true [⟨0, 0⟩] true (some 7) 7 true).points.length ≤ 5
      ∧ (handlePointerUp ⟨⟨0, 0⟩, 1⟩
            (AppState.mk true [⟨0, 0⟩] true (some 7) 7 true)).lastScore = some 0)
    ∧ ((AppState.mk true [⟨0, 0⟩] true (some 7) 7 true).hasAttempt = true
      ∧ (step ⟨⟨0, 0⟩, 1⟩ PointerEvent.up
            (AppState.mk true [⟨0, 0⟩] true (some 7) 7 true)).hasAttempt = true)
    ∧ ((AppState.mk true [⟨0, 0⟩] true (some 7) 7 true).lastScore ≠ none
      ∧ (step ⟨⟨0, 0⟩, 1⟩ PointerEvent.up
            (AppState.mk true [⟨0, 0⟩] true (some 7) 7 true)).lastScore ≠ none) := by
  have h := short_stroke_records_attempt ⟨⟨0, 0⟩, 1⟩
  refine ⟨⟨rfl, by simp, by simp,
      (h.1 (AppState.mk true [⟨0, 0⟩] true (some 7) 7 true) rfl (by simp) (by simp)).1⟩,
    ⟨rfl, h.2.1 _ PointerEvent.up rfl⟩,
    ⟨by simp, h.2.2 _ PointerEvent.up (by simp)⟩⟩

/-! ## Coordinate mapping -/

/-- `getPointerPosition`: maps a client-space pointer position into canvas
logical coordinates using the element's bounding rectangle, the backing-store
width, and the stored device pixel ratio:
`scale = canvas.width / rect.width`, result `(client - rect.origin) * (scale / dpr)`. -/
noncomputable def getPointerPosition (canvasWidth rectWidth rectLeft rectTop dpr
    clientX clientY : ℝ) : Point :=
  ⟨(clientX - rectLeft) * (canvasWidth / rectWidth / dpr),
   (clientY - rectTop) * (canvasWidth / rectWidth / dpr)⟩

/-- C9: with the backing store sized to `CANVAS_SIZE * dpr` (as done by the
canvas initialization effect) and the element rect at `CANVAS_SIZE` logical
pixels, the logical sample produced from a client-space position is the same
under any two device pixel ratios. -/
theorem getPointerPosition_dpr_independent
    (dpr₁ dpr₂ rectLeft rectTop clientX clientY : ℝ)
    (h₁ : 0 < dpr₁) (h₂ : 0 < dpr₂) :
    getPointerPosition (CANVAS_SIZE * dpr₁) CANVAS_SIZE rectLeft rectTop dpr₁
        clientX clientY
      = getPointerPosition (CANVAS_SIZE * dpr₂) CANVAS_SIZE rectLeft rectTop dpr₂
        clientX clientY := by
  unfold getPointerPosition CANVAS_SIZE
  have e₁ : (320 : ℝ) * dpr₁ / 320 / dpr₁ = 1 := by
    field_simp
  have e₂ : (320 : ℝ) * dpr₂ / 320 / dpr₂ = 1 := by
    field_simp
  rw [e₁, e₂]

/-- Witness for C9 at device pixel ratios 1 and 2 and the client origin. -/
theorem getPointerPosition_dpr_independent_witness :
    (0 : ℝ) < 1 ∧ (0 : ℝ) < 2
    ∧ getPointerPosition (CANVAS_SIZE * 1) CANVAS_SIZE 0 0 1 0 0
        = getPointerPosition (CANVAS_SIZE * 2) CANVAS_SIZE 0 0 2 0 0 :=
  ⟨by norm_num, by norm_num,
    getPointerPosition_dpr_independent 1 2 0 0 0 0 (by norm_num) (by norm_num)⟩

/-! ## Strokes on the reference circle -/

/-- The point of the circle with center `c` and radius `r` at angle `θ`. -/
noncomputable def circlePoint (c : Point) (r θ : ℝ) : Point :=
  ⟨c.x + r * Real.cos θ, c.y + r * Real.sin θ⟩

/-- `n` samples on the circle of center `c` and radius `r`, starting at angle
`a` and stepping by `δ`: the `k`-th sample sits at angle `a + k·δ`. -/
noncomputable def arcFrom (c : Point) (r : ℝ) : ℝ → ℝ → ℕ → List Point
  | _, _, 0 => []
  | a, δ, n + 1 => circlePoint c r a :: arcFrom c r (a + δ) δ n

lemma arcFrom_length (c : Point) (r : ℝ) :
    ∀ (n : ℕ) (a δ : ℝ), (arcFrom c r a δ n).length = n := by
  intro n
  induction n with
  | zero => intro a δ; simp [arcFrom]
  | succ n ih => intro a δ; simp [arcFrom, ih]

lemma hypot_circle (r θ : ℝ) (hr : 0 ≤ r) :
    hypot (r * Real.cos θ) (r * Real.sin θ) = r := by
  unfold hypot
  have h : (r * Real.cos θ) ^ 2 + (r * Real.sin θ) ^ 2 = r ^ 2 := by
    have hs := Real.sin_sq_add_cos_sq θ
    linear_combination r ^ 2 * hs
  rw [h, Real.sqrt_sq hr]

lemma deviationSum_arcFrom (c : Point) (r : ℝ) (hr : 0 ≤ r) :
    ∀ (n : ℕ) (a δ : ℝ), deviationSum c r (arcFrom c r a δ n) = 0 := by
  intro n
  induction n with
  | zero => intro a δ; simp [arcFrom, deviationSum]
  | succ n ih =>
    intro a δ
    simp only [arcFrom, deviationSum, circlePoint]
    have hx : c.x + r * Real.cos a - c.x = r * Real.cos a := by ring
    have hy : c.y + r * Real.sin a - c.y = r * Real.sin a := by ring
    rw [hx, hy, hypot_circle r a hr, sub_self, abs_zero, ih, add_zero]

lemma chord_eq (c : Point) (r a δ : ℝ) (hr : 0 ≤ r) (hs : 0 ≤ Real.sin (δ / 2)) :
    hypot ((circlePoint c r (a + δ)).x - (circlePoint c r a).x)
        ((circlePoint c r (a + δ)).y - (circlePoint c r a).y)
      = 2 * r * Real.sin (δ / 2) := by
  unfold circlePoint hypot
  simp only
  have key : (c.x + r * Real.cos (a + δ) - (c.x + r * Real.cos a)) ^ 2
      + (c.y + r * Real.sin (a + δ) - (c.y + r * Real.sin a)) ^ 2
      = (2 * r * Real.sin (δ / 2)) ^ 2 := by
    have h1 := Real.sin_sq_add_cos_sq a
    have h2 := Real.sin_sq_add_cos_sq (a + δ)
    have h3 := Real.cos_sub (a + δ) a
    have h4 := Real.sin_sq_eq_half_sub (δ / 2)
    have h5 : a + δ - a = δ := by ring
    have h6 : 2 * (δ / 2) = δ := by ring
    rw [h5] at h3
    rw [h6] at h4
    linear_combination r ^ 2 * h1 + r ^ 2 * h2 + 2 * r ^ 2 * h3 - 4 * r ^ 2 * h4
  rw [key, Real.sqrt_sq (by positivity)]

lemma pathLength_arcFrom (c : Point) (r δ : ℝ) (hr : 0 ≤ r)
    (hs : 0 ≤ Real.sin (δ / 2)) :
    ∀ (n : ℕ) (a : ℝ),
      pathLength (arcFrom c r a δ n) = (n - 1 : ℕ) * (2 * r * Real.sin (δ / 2)) := by
  intro n
  induction n with
  | zero => intro a; simp [arcFrom, pathLength]
  | succ m ih =>
    intro a
    cases m with
    | zero => simp [arcFrom, pathLength]
    | succ k =>
      have e1 : arcFrom c r a δ (k + 2)
          = circlePoint c r a :: circlePoint c r (a + δ) :: arcFrom c r (a + δ + δ) δ k :=
        rfl
      have e2 : circlePoint c r (a + δ) :: arcFrom c r (a + δ + δ) δ k
          = arcFrom c r (a + δ) δ (k + 1) := rfl
      rw [e1, pathLength, e2, chord_eq c r a δ hr hs, ih (a + δ)]
      have e3 : (k + 1 + 1 - 1 : ℕ) = k + 1 := rfl
      have e4 : (k + 1 - 1 : ℕ) = k := rfl
      rw [e3, e4]
      push_cast
      ring

lemma deviationSum_nonneg (c : Point) (r : ℝ) :
    ∀ l : List Point, 0 ≤ deviationSum c r l := by
  intro l
  induction l with
  | nil => simp [deviationSum]
  | cons p rest ih =>
    simp only [deviationSum]
    exact add_nonneg (abs_nonneg _) ih

lemma round_mono_real {x y : ℝ} (h : x ≤ y) : round x ≤ round y := by
  rw [round_eq, round_eq]
  exact Int.floor_le_floor (by linarith)

lemma pathLength_replicate (p : Point) :
    ∀ n : ℕ, pathLength (List.replicate n p) = 0 := by
  intro n
  induction n with
  | zero => simp [pathLength]
  | succ m ih =>
    cases m with
    | zero => simp [pathLength, List.replicate]
    | succ k =>
      have e1 : List.replicate (k + 2) p = p :: p :: List.replicate k p := rfl
      have e2 : p :: List.replicate k p = List.replicate (k + 1) p := rfl
      rw [e1, pathLength, e2, ih]
      have hh : hypot (p.x - p.x) (p.y - p.y) = 0 := by
        unfold hypot
        rw [sub_self, sub_self]
        norm_num
      rw [hh, add_zero]

/-- C4 counterexample: six identical samples placed exactly on the unit
reference circle score 65, exceeding the claimed bound of 35. -/
theorem stationary_stroke_counterexample :
    scoreDrawing (List.replicate 6 ⟨1, 0⟩) ⟨⟨0, 0⟩, 1⟩ = 65
    ∧ ¬ scoreDrawing (List.replicate 6 ⟨1, 0⟩) ⟨⟨0, 0⟩, 1⟩ ≤ 35 := by
  have hlen : (List.replicate 6 (⟨1, 0⟩ : Point)).length = 6 := by simp
  have hdev : deviationSum (⟨0, 0⟩ : Point) 1 (List.replicate 6 ⟨1, 0⟩) = 0 := by
    have h1 : hypot (1 : ℝ) 0 = 1 := by
      unfold hypot
      norm_num
    simp [deviationSum, List.replicate, h1]
  have havg : avgDeviation (List.replicate 6 ⟨1, 0⟩) ⟨⟨0, 0⟩, 1⟩ = 0 := by
    unfold avgDeviation
    rw [hdev]
    simp
  have hds : deviationScore (List.replicate 6 ⟨1, 0⟩) ⟨⟨0, 0⟩, 1⟩ = 1 := by
    unfold deviationScore
    rw [havg]
    norm_num
  have hcr : coverageRatio (List.replicate 6 ⟨1, 0⟩) ⟨⟨0, 0⟩, 1⟩ = 0 := by
    unfold coverageRatio
    rw [pathLength_replicate]
    norm_num
  have hcs : coverageScore (List.replicate 6 ⟨1, 0⟩) ⟨⟨0, 0⟩, 1⟩ = 0 := by
    unfold coverageScore
    rw [hcr]
    exact Real.zero_rpow (by norm_num)
  have hval : scoreDrawing (List.replicate 6 ⟨1, 0⟩) ⟨⟨0, 0⟩, 1⟩ = 65 := by
    unfold scoreDrawing
    rw [hds, hcs]
    have h100 : ((1 : ℝ) * 0.65 + 0 * 0.35) * 100 = 65 := by norm_num
    rw [hlen, h100]
    norm_num [round_ofNat]
  exact ⟨hval, by omega⟩

/-- C4 amended: a stroke of at least 6 identical samples (zero path length)
on a circle of positive radius scores at most 65: coverage contributes 0 and
the deviation term is capped at the 65% weight. -/
theorem stationary_stroke_scores_le_65 (ref : ReferenceCircle) (p : Point) (n : ℕ)
    (hn : 6 ≤ n) (hr : 0 < ref.radius) :
    scoreDrawing (List.replicate n p) ref ≤ 65 := by
  have hlen : (List.replicate n p).length = n := by simp
  have hds_le : deviationScore (List.replicate n p) ref ≤ 1 := by
    unfold deviationScore
    have ht : 0 ≤ avgDeviation (List.replicate n p) ref / (ref.radius * 0.6) := by
      apply div_nonneg
      · unfold avgDeviation
        apply div_nonneg (deviationSum_nonneg _ _ _)
        positivity
      · nlinarith
    apply max_le (by norm_num)
    linarith
  have hds_ge : (0 : ℝ) ≤ deviationScore (List.replicate n p) ref := le_max_left _ _
  have hcs : coverageScore (List.replicate n p) ref = 0 := by
    unfold coverageScore coverageRatio
    rw [pathLength_replicate]
    norm_num
  have hround : round ((deviationScore (List.replicate n p) ref * 0.65
      + coverageScore (List.replicate n p) ref * 0.35) * 100) ≤ 65 := by
    have hle : (deviationScore (List.replicate n p) ref * 0.65
        + coverageScore (List.replicate n p) ref * 0.35) * 100 ≤ (65 : ℝ) := by
      rw [hcs]
      nlinarith
    calc round ((deviationScore (List.replicate n p) ref * 0.65
          + coverageScore (List.replicate n p) ref * 0.35) * 100)
        ≤ round (65 : ℝ) := round_mono_real hle
      _ = 65 := by norm_num [round_ofNat]
  unfold scoreDrawing
  rw [hlen]
  have hn6 : ¬ n < 6 := by omega
  simp only [hn6, if_false]
  omega

/-- Witness for C4's amended claim: six identical samples at the origin's
unit circle center score at most 65. -/
theorem stationary_stroke_scores_le_65_witness :
    6 ≤ 6 ∧ (0 : ℝ) < (ReferenceCircle.mk ⟨0, 0⟩ 1).radius
    ∧ scoreDrawing (List.replicate 6 ⟨0, 0⟩) ⟨⟨0, 0⟩, 1⟩ ≤ 65 :=
  ⟨le_refl 6, by norm_num,
    stationary_stroke_scores_le_65 ⟨⟨0, 0⟩, 1⟩ ⟨0, 0⟩ 6 (le_refl 6) (by norm_num)⟩

/-- A polygon inscribed with `m ≥ 5` equal sides spans at least 90% of the
circumference: `0.9·π ≤ m·sin(π/m)`, by concavity of `sin` on `[0, π]`. -/
lemma mul_sin_pi_div_ge (m : ℝ) (hm : 5 ≤ m) :
    0.9 * Real.pi ≤ m * Real.sin (Real.pi / m) := by
  have hm0 : (0 : ℝ) < m := by linarith
  have hpi2 : Real.pi ^ 2 < 10 := by
    nlinarith [Real.pi_lt_d2, Real.pi_gt_three]
  have hsin5 : 0.18 * Real.pi ≤ Real.sin (Real.pi / 5) := by
    have hx : (0 : ℝ) < Real.pi / 5 := by positivity
    have hx1 : Real.pi / 5 ≤ 1 := by nlinarith [Real.pi_lt_four]
    have hcube := Real.sin_gt_sub_cube hx hx1
    nlinarith [Real.pi_pos]
  have hmem0 : (0 : ℝ) ∈ Set.Icc (0 : ℝ) Real.pi := ⟨le_refl 0, Real.pi_nonneg⟩
  have hmem5 : Real.pi / 5 ∈ Set.Icc (0 : ℝ) Real.pi := by
    constructor
    · positivity
    · nlinarith [Real.pi_pos]
  have ha : (0 : ℝ) ≤ 1 - 5 / m := by
    rw [sub_nonneg]
    exact (div_le_one hm0).2 hm
  have hb : (0 : ℝ) ≤ 5 / m := by positivity
  have hab : (1 - 5 / m) + 5 / m = 1 := by ring
  have hcc := strictConcaveOn_sin_Icc.concaveOn.2 hmem0 hmem5 ha hb hab
  simp only [smul_eq_mul, Real.sin_zero, mul_zero, zero_add] at hcc
  have harg : 5 / m * (Real.pi / 5) = Real.pi / m := by
    field_simp
    ring
  rw [harg] at hcc
  have h5 : 5 * Real.sin (Real.pi / 5) ≤ m * Real.sin (Real.pi / m) := by
    have hstep := mul_le_mul_of_nonneg_left hcc (le_of_lt hm0)
    calc 5 * Real.sin (Real.pi / 5) = m * (5 / m * Real.sin (Real.pi / 5)) := by
          field_simp
      _ ≤ m * Real.sin (Real.pi / m) := hstep
  linarith

/-- Scoring a stroke of `n ≥ 6` samples that starts on the circle at angle 0
and steps by `δ`: if the sampled polygon is long enough to cap the coverage
ratio, every component is maximal and the final score is 100. -/
lemma scoreDrawing_arcFrom_max (ref : ReferenceCircle) (n : ℕ) (δ : ℝ)
    (hn : 6 ≤ n) (hr : 0 < ref.radius) (hs : 0 ≤ Real.sin (δ / 2))
    (hcov : 2 * Real.pi * ref.radius * 0.9
      ≤ (n - 1 : ℕ) * (2 * ref.radius * Real.sin (δ / 2))) :
    avgDeviation (arcFrom ref.center ref.radius 0 δ n) ref = 0
    ∧ deviationScore (arcFrom ref.center ref.radius 0 δ n) ref = 1
    ∧ coverageRatio (arcFrom ref.center ref.radius 0 δ n) ref = 1
    ∧ coverageScore (arcFrom ref.center ref.radius 0 δ n) ref = 1
    ∧ scoreDrawing (arcFrom ref.center ref.radius 0 δ n) ref = 100 := by
  have havg : avgDeviation (arcFrom ref.center ref.radius 0 δ n) ref = 0 := by
    unfold avgDeviation
    rw [deviationSum_arcFrom ref.center ref.radius (le_of_lt hr)]
    simp
  have hds : deviationScore (arcFrom ref.center ref.radius 0 δ n) ref = 1 := by
    unfold deviationScore
    rw [havg]
    norm_num
  have hcr : coverageRatio (arcFrom ref.center ref.radius 0 δ n) ref = 1 := by
    unfold coverageRatio
    rw [pathLength_arcFrom ref.center ref.radius δ (le_of_lt hr) hs]
    have hden : (0 : ℝ) < 2 * Real.pi * ref.radius * 0.9 := by
      nlinarith [mul_pos Real.pi_pos hr]
    rw [min_eq_right]
    exact (one_le_div hden).2 hcov
  have hcs : coverageScore (arcFrom ref.center ref.radius 0 δ n) ref = 1 := by
    unfold coverageScore
    rw [hcr, Real.one_rpow]
  refine ⟨havg, hds, hcr, hcs, ?_⟩
  unfold scoreDrawing
  rw [arcFrom_length, hds, hcs]
  have hn6 : ¬ n < 6 := by omega
  simp only [hn6, if_false]
  have h100 : ((1 : ℝ) * 0.65 + 1 * 0.35) * 100 = 100 := by norm_num
  rw [h100]
  norm_num [round_ofNat]

/-- C3: for every `n ≥ 6` and reference circle of positive radius, the stroke
of `n` samples lying exactly on the circle, evenly spaced over a full
revolution (the `k`-th sample at angle `2π·k/(n−1)`, closing back at the
start), has deviation 0, coverage ratio capped at 1, and scores exactly 100. -/
theorem evenly_spaced_full_circle_scores_100 (n : ℕ) (ref : ReferenceCircle)
    (hn : 6 ≤ n) (hr : 0 < ref.radius) :
    avgDeviation (arcFrom ref.center ref.radius 0 (2 * Real.pi / ((n : ℝ) - 1)) n) ref = 0
    ∧ coverageRatio (arcFrom ref.center ref.radius 0 (2 * Real.pi / ((n : ℝ) - 1)) n) ref = 1
    ∧ scoreDrawing (arcFrom ref.center ref.radius 0 (2 * Real.pi / ((n : ℝ) - 1)) n) ref
        = 100 := by
  have hm5 : (5 : ℝ) ≤ (n : ℝ) - 1 := by
    have : (6 : ℝ) ≤ (n : ℝ) := by exact_mod_cast hn
    linarith
  have hm0 : (0 : ℝ) < (n : ℝ) - 1 := by linarith
  have hhalf : 2 * Real.pi / ((n : ℝ) - 1) / 2 = Real.pi / ((n : ℝ) - 1) := by
    ring
  have hs : 0 ≤ Real.sin (2 * Real.pi / ((n : ℝ) - 1) / 2) := by
    rw [hhalf]
    apply Real.sin_nonneg_of_nonneg_of_le_pi
    · positivity
    · rw [div_le_iff₀ hm0]
      nlinarith [Real.pi_nonneg]
  have hcov : 2 * Real.pi * ref.radius * 0.9
      ≤ ((n - 1 : ℕ) : ℝ)
        * (2 * ref.radius * Real.sin (2 * Real.pi / ((n : ℝ) - 1) / 2)) := by
    rw [Nat.cast_sub (by omega : 1 ≤ n), Nat.cast_one, hhalf]
    nlinarith [mul_le_mul_of_nonneg_left
      (mul_sin_pi_div_ge ((n : ℝ) - 1) hm5) (le_of_lt hr)]
  obtain ⟨h1, _, h3, _, h5⟩ :=
    scoreDrawing_arcFrom_max ref n (2 * Real.pi / ((n : ℝ) - 1)) hn hr hs hcov
  exact ⟨h1, h3, h5⟩

/-- Witness for C3: six samples evenly spaced over a full revolution of the
unit circle at the origin score 100. -/
theorem evenly_spaced_full_circle_scores_100_witness :
    6 ≤ 6 ∧ (0 : ℝ) < (ReferenceCircle.mk ⟨0, 0⟩ 1).radius
    ∧ (avgDeviation (arcFrom (⟨0, 0⟩ : Point) 1 0 (2 * Real.pi / ((6 : ℕ) - 1 : ℝ)) 6)
          ⟨⟨0, 0⟩, 1⟩ = 0
      ∧ coverageRatio (arcFrom (⟨0, 0⟩ : Point) 1 0 (2 * Real.pi / ((6 : ℕ) - 1 : ℝ)) 6)
          ⟨⟨0, 0⟩, 1⟩ = 1
      ∧ scoreDrawing (arcFrom (⟨0, 0⟩ : Point) 1 0 (2 * Real.pi / ((6 : ℕ) - 1 : ℝ)) 6)
          ⟨⟨0, 0⟩, 1⟩ = 100) :=
  ⟨le_refl 6, by norm_num,
    evenly_spaced_full_circle_scores_100 6 ⟨⟨0, 0⟩, 1⟩ (le_refl 6) (by norm_num)⟩

/-- The 359-sided open polygon stepping 1° spans at least 90% of the
circumference: `0.9·π ≤ 359·sin(π/360)`. -/
lemma sin_pi_div_360_bound : 0.9 * Real.pi ≤ 359 * Real.sin (Real.pi / 360) := by
  have hx : (0 : ℝ) < Real.pi / 360 := by positivity
  have hx1 : Real.pi / 360 ≤ 1 := by nlinarith [Real.pi_lt_four]
  have hcube := Real.sin_gt_sub_cube hx hx1
  have hpi2 : Real.pi ^ 2 < 10 := by nlinarith [Real.pi_lt_d2, Real.pi_gt_three]
  have hpi3 : Real.pi ^ 3 < 10 * Real.pi := by nlinarith [Real.pi_pos]
  nlinarith [hcube, hpi3, Real.pi_pos]

/-- C8: the spec's worked example: on the code's reference circle (center
`(160,160)`, radius `121.6 = 0.38·320`), the stroke of 360 points at angles
stepping 1° (`π/180`) from 0 has deviation score 1, coverage ratio 1,
coverage score 1, and final score 100. -/
theorem spec_example_360_points_scores_100 :
    defaultReference.center.x = 160 ∧ defaultReference.center.y = 160
    ∧ defaultReference.radius = 121.6
    ∧ deviationScore (arcFrom defaultReference.center defaultReference.radius 0
        (Real.pi / 180) 360) defaultReference = 1
    ∧ coverageRatio (arcFrom defaultReference.center defaultReference.radius 0
        (Real.pi / 180) 360) defaultReference = 1
    ∧ coverageScore (arcFrom defaultReference.center defaultReference.radius 0
        (Real.pi / 180) 360) defaultReference = 1
    ∧ scoreDrawing (arcFrom defaultReference.center defaultReference.radius 0
        (Real.pi / 180) 360) defaultReference = 100 := by
  have hradius : defaultReference.radius = 121.6 := by
    unfold defaultReference CANVAS_SIZE
    norm_num
  have hr : (0 : ℝ) < defaultReference.radius := by
    rw [hradius]
    norm_num
  have hhalf : Real.pi / 180 / 2 = Real.pi / 360 := by ring
  have hs : 0 ≤ Real.sin (Real.pi / 180 / 2) := by
    rw [hhalf]
    apply Real.sin_nonneg_of_nonneg_of_le_pi
    · positivity
    · rw [div_le_iff₀ (by norm_num : (0 : ℝ) < 360)]
      nlinarith [Real.pi_nonneg]
  have hcov : 2 * Real.pi * defaultReference.radius * 0.9
      ≤ ((360 - 1 : ℕ) : ℝ)
        * (2 * defaultReference.radius * Real.sin (Real.pi / 180 / 2)) := by
    rw [hradius, hhalf]
    have hc : ((360 - 1 : ℕ) : ℝ) = 359 := by norm_num
    rw [hc]
    linarith [sin_pi_div_360_bound]
  obtain ⟨_, hd, hcr, hcs, hsc⟩ :=
    scoreDrawing_arcFrom_max defaultReference 360 (Real.pi / 180)
      (by norm_num) hr hs hcov
  refine ⟨?_, ?_, hradius, hd, hcr, hcs, hsc⟩
  · unfold defaultReference CANVAS_SIZE
    norm_num
  · unfold defaultReference CANVAS_SIZE
    norm_num

end CircleGame
